import Mathlib

/-!
# Verification of the stress-tracker core

Shallow embedding of the stress-tracker backend's real-time fan-out and
cooldown-gated submission subsystem, together with proofs about it.

The embedding follows the JavaScript source:
* `StressEntryModel` (`canSubmitStressEntry`, `canSubmitSuperstress`,
  `create`, `getSummaryData`) — stress-entry model over the SQLite store,
* the websocket plugin (`broadcastToAuthenticated`, `broadcastToAnonymous`,
  `registerAuthenticatedClient` / `registerAnonymousClient` cleanup hooks,
  `getConnectionStats`),
* the stress routes (`POST /`, `POST /superstress`) and the websocket event
  dispatcher (`broadcastStressUpdate`, `broadcastSummaryUpdate`).

Timestamps are modelled in whole seconds (SQLite `strftime('%s', ...)`),
elapsed times in milliseconds as in the source (`* 1000`).
-/

namespace StressTracker

/-- A row of the `stress_entries` table.  `createdAt` is in seconds
(the store's own clock, `CURRENT_TIMESTAMP` read back via `strftime('%s')`). -/
structure Entry where
  id : Nat
  userId : Nat
  stressLevel : Int
  isSuperstress : Bool
  createdAt : Nat
deriving DecidableEq, Repr

/-- The database, as the ordered list of inserted rows plus the next rowid.
New rows are appended at the end (`INSERT`). -/
structure Store where
  entries : List Entry
  nextId : Nat
deriving DecidableEq, Repr

/-- Whether entry `e` is strictly newer than the current best row `r`
(a missing best row counts as beaten). -/
def newerThan (r : Option Entry) (e : Entry) : Bool :=
  match r with
  | none => true
  | some b => b.createdAt < e.createdAt

/-- `SELECT * FROM stress_entries WHERE <p> ORDER BY created_at DESC LIMIT 1`:
the entry satisfying `p` with the greatest `created_at`; on ties the
later-inserted row wins. -/
def latestMatching (p : Entry → Bool) : List Entry → Option Entry
  | [] => none
  | e :: rest =>
    let r := latestMatching p rest
    if p e && newerThan r e then some e else r

/-- Result shape of the two cooldown checks (`canSubmit`, `timeRemaining`,
optional `lastEntry`). -/
structure CooldownResult where
  canSubmit : Bool
  timeRemaining : Int
  lastEntry : Option Entry
deriving DecidableEq, Repr

/-- Shared decision body of both cooldown checks: given the most recent
qualifying row (or none), compute `elapsed_ms` in SQLite as
`(strftime now - strftime created_at) * 1000` and admit iff there is no row
or the elapsed time reaches the configured cooldown; otherwise reject with
the remaining time and the full last row. -/
def cooldownGate (cooldownMs : Int) (now : Nat) (r : Option Entry) : CooldownResult :=
  match r with
  | none => ⟨true, 0, none⟩
  | some e =>
    let elapsedMs : Int := ((now : Int) - (e.createdAt : Int)) * 1000
    if cooldownMs ≤ elapsedMs then ⟨true, 0, none⟩
    else ⟨false, cooldownMs - elapsedMs, some e⟩

/-- `StressEntryModel.canSubmitStressEntry`: the gate applied to the user's
most recent entry of any kind (`WHERE user_id = ?`). -/
def canSubmitStressEntry (cooldownMs : Int) (now : Nat) (db : List Entry)
    (userId : Nat) : CooldownResult :=
  cooldownGate cooldownMs now (latestMatching (fun e => e.userId == userId) db)

/-- `StressEntryModel.canSubmitSuperstress`: the gate applied to the user's
most recent superstress entry (`WHERE user_id = ? AND is_superstress = 1`). -/
def canSubmitSuperstress (cooldownMs : Int) (now : Nat) (db : List Entry)
    (userId : Nat) : CooldownResult :=
  cooldownGate cooldownMs now
    (latestMatching (fun e => e.userId == userId && e.isSuperstress) db)

/-- `StressEntryModel.create`: clamps the level to `[0, 200]` via
`Math.max(0, Math.min(200, stressLevel))`, inserts the row with the store
clock's timestamp, and returns the created row. -/
def createEntry (st : Store) (now : Nat) (userId : Nat) (stressLevel : Int)
    (isSuperstress : Bool) : Entry × Store :=
  let validStressLevel := max 0 (min 200 stressLevel)
  let e : Entry := ⟨st.nextId, userId, validStressLevel, isSuperstress, now⟩
  (e, ⟨st.entries ++ [e], st.nextId + 1⟩)

/-! ## Basic facts about `latestMatching` -/

theorem latestMatching_none_forall (p : Entry → Bool) (l : List Entry)
    (h : latestMatching p l = none) : ∀ x ∈ l, p x = false := by
  induction l with
  | nil => simp
  | cons e rest ih =>
    simp only [latestMatching] at h
    by_cases hc : (p e && newerThan (latestMatching p rest) e) = true
    · rw [if_pos hc] at h
      exact Option.noConfusion h
    · rw [if_neg hc] at h
      have hpe : p e = false := by
        by_contra hpe
        rw [Bool.not_eq_false] at hpe
        rw [h] at hc
        exact hc (by simp [hpe, newerThan])
      intro x hx
      rcases List.mem_cons.mp hx with rfl | hx
      · exact hpe
      · exact ih h x hx

theorem latestMatching_forall_none (p : Entry → Bool) (l : List Entry)
    (h : ∀ x ∈ l, p x = false) : latestMatching p l = none := by
  induction l with
  | nil => rfl
  | cons e rest ih =>
    have hpe : p e = false := h e (List.mem_cons_self _ _)
    have hr : latestMatching p rest = none :=
      ih fun x hx => h x (List.mem_cons_of_mem _ hx)
    simp [latestMatching, hpe, hr]

theorem latestMatching_eq_none (p : Entry → Bool) (l : List Entry) :
    latestMatching p l = none ↔ ∀ x ∈ l, p x = false :=
  ⟨latestMatching_none_forall p l, latestMatching_forall_none p l⟩

theorem latestMatching_spec (p : Entry → Bool) (l : List Entry) (e : Entry)
    (h : latestMatching p l = some e) :
    e ∈ l ∧ p e = true ∧ ∀ x ∈ l, p x = true → x.createdAt ≤ e.createdAt := by
  induction l generalizing e with
  | nil => simp [latestMatching] at h
  | cons a rest ih =>
    simp only [latestMatching] at h
    by_cases hc : (p a && newerThan (latestMatching p rest) a) = true
    · rw [if_pos hc] at h
      have hea : a = e := Option.some.inj h
      subst hea
      obtain ⟨hpa, hnew⟩ : p a = true ∧ newerThan (latestMatching p rest) a = true := by
        simpa using hc
      refine ⟨List.mem_cons_self _ _, hpa, ?_⟩
      intro x hx hpx
      rcases List.mem_cons.mp hx with rfl | hx
      · exact le_refl _
      · cases hr : latestMatching p rest with
        | none => exact absurd hpx (by simp [latestMatching_none_forall p rest hr x hx])
        | some b =>
          have hba : b.createdAt < a.createdAt := by
            rw [hr] at hnew
            simpa [newerThan] using hnew
          exact le_trans ((ih b hr).2.2 x hx hpx) (le_of_lt hba)
    · rw [if_neg hc] at h
      rcases ih e h with ⟨hmem, hpe, hmax⟩
      refine ⟨List.mem_cons_of_mem _ hmem, hpe, ?_⟩
      intro x hx hpx
      rcases List.mem_cons.mp hx with rfl | hx
      · by_contra hlt
        push_neg at hlt
        exact hc (by rw [h]; simp [hpx, newerThan, hlt])
      · exact hmax x hx hpx

theorem latestMatching_append_not (p : Entry → Bool) (l : List Entry) (e : Entry)
    (h : p e = false) : latestMatching p (l ++ [e]) = latestMatching p l := by
  induction l with
  | nil => simp [latestMatching, h]
  | cons a rest ih =>
    show (if p a && newerThan (latestMatching p (rest ++ [e])) a then some a
          else latestMatching p (rest ++ [e])) =
      (if p a && newerThan (latestMatching p rest) a then some a
          else latestMatching p rest)
    rw [ih]

/-! ## Facts about the cooldown gate -/

theorem cooldownGate_none (c : Int) (n : Nat) : cooldownGate c n none = ⟨true, 0, none⟩ :=
  rfl

theorem cooldownGate_allows (c : Int) (n : Nat) (e : Entry)
    (h : c ≤ ((n : Int) - (e.createdAt : Int)) * 1000) :
    cooldownGate c n (some e) = ⟨true, 0, none⟩ := by
  simp [cooldownGate, h]

theorem cooldownGate_reject (c : Int) (n : Nat) (e : Entry)
    (h : ((n : Int) - (e.createdAt : Int)) * 1000 < c) :
    cooldownGate c n (some e) =
      ⟨false, c - ((n : Int) - (e.createdAt : Int)) * 1000, some e⟩ := by
  simp [cooldownGate, not_le.mpr h]

theorem cooldownGate_false (c : Int) (n : Nat) (r : Option Entry)
    (h : (cooldownGate c n r).canSubmit = false) :
    ∃ e, r = some e ∧ ((n : Int) - (e.createdAt : Int)) * 1000 < c ∧
      cooldownGate c n r =
        ⟨false, c - ((n : Int) - (e.createdAt : Int)) * 1000, some e⟩ := by
  cases r with
  | none => simp [cooldownGate] at h
  | some e =>
    by_cases hle : c ≤ ((n : Int) - (e.createdAt : Int)) * 1000
    · rw [cooldownGate_allows c n e hle] at h
      simp at h
    · exact ⟨e, rfl, not_le.mp hle, cooldownGate_reject c n e (not_le.mp hle)⟩

theorem cooldownGate_true (c : Int) (n : Nat) (r : Option Entry)
    (h : (cooldownGate c n r).canSubmit = true) (e : Entry) (he : r = some e) :
    c ≤ ((n : Int) - (e.createdAt : Int)) * 1000 := by
  by_contra hlt
  rw [he, cooldownGate_reject c n e (not_le.mp hlt)] at h
  simp at h

/-! ## The submission routes (`src/routes/stress.js`) -/

/-- Outcome of a submission handler, as seen by the caller:
the created row (HTTP 200), the rate-limited result carrying
`remainingTime` and the last qualifying entry's `created_at` (HTTP 429),
or the regular route's out-of-range rejection (HTTP 400). -/
inductive StressResponse where
  | created (entry : Entry)
  | rateLimited (remainingTime : Int) (lastEntryAt : Nat)
  | badRequest
deriving DecidableEq, Repr

/-- `cooldownCheck.lastEntry.created_at` as read by the 429 branch (the
rejecting gate always carries `lastEntry`; the default is never used). -/
def rejectedLastAt (c : CooldownResult) : Nat :=
  match c.lastEntry with
  | some e => e.createdAt
  | none => 0

/-- `if (level < 0) level = 0` in the `POST /` handler. -/
def clampNonneg (level : Int) : Int :=
  if level < 0 then 0 else level

/-- `POST /` handler: clamp already-rounded `level` (negative input is
clamped to 0, input above 100 is rejected with 400), run the regular cooldown
check, and either answer 429 without touching the store or insert the new
non-superstress row.  `level` is the integer produced by `Math.round`. -/
def postStress (cooldownMs : Int) (now : Nat) (st : Store) (userId : Nat)
    (level : Int) : StressResponse × Store :=
  if 100 < clampNonneg level then (.badRequest, st)
  else if (canSubmitStressEntry cooldownMs now st.entries userId).canSubmit then
    (.created (createEntry st now userId (clampNonneg level) false).1,
      (createEntry st now userId (clampNonneg level) false).2)
  else
    (.rateLimited (canSubmitStressEntry cooldownMs now st.entries userId).timeRemaining
      (rejectedLastAt (canSubmitStressEntry cooldownMs now st.entries userId)), st)

/-- `POST /superstress` handler: run the superstress cooldown check and either
answer 429 without touching the store or insert the new row with the level
fixed at 200. -/
def postSuperstress (cooldownMs : Int) (now : Nat) (st : Store)
    (userId : Nat) : StressResponse × Store :=
  if (canSubmitSuperstress cooldownMs now st.entries userId).canSubmit then
    (.created (createEntry st now userId 200 true).1,
      (createEntry st now userId 200 true).2)
  else
    (.rateLimited (canSubmitSuperstress cooldownMs now st.entries userId).timeRemaining
      (rejectedLastAt (canSubmitSuperstress cooldownMs now st.entries userId)), st)

/-! ## C1 — the regular cooldown check -/

/-- C1: `canSubmitStressEntry` admits with `timeRemaining = 0` when the user
has no prior reading or when the elapsed time since the most recent reading
reaches the regular cooldown; otherwise it rejects with
`timeRemaining = cooldownMs - elapsed`, strictly positive and at most
`cooldownMs`; and whenever it admits, every existing reading of the user is
at least `cooldownMs` old, so two successive admitted regular submissions
are separated by at least the regular cooldown. -/
theorem canSubmitStressEntry_cooldown_spec (cooldownMs : Int) (now : Nat)
    (db : List Entry) (userId : Nat)
    (hclock : ∀ e, latestMatching (fun x => x.userId == userId) db = some e →
      e.createdAt ≤ now) :
    (latestMatching (fun x => x.userId == userId) db = none →
      canSubmitStressEntry cooldownMs now db userId = ⟨true, 0, none⟩) ∧
    (∀ e, latestMatching (fun x => x.userId == userId) db = some e →
      (cooldownMs ≤ ((now : Int) - (e.createdAt : Int)) * 1000 →
        canSubmitStressEntry cooldownMs now db userId = ⟨true, 0, none⟩) ∧
      (((now : Int) - (e.createdAt : Int)) * 1000 < cooldownMs →
        canSubmitStressEntry cooldownMs now db userId =
          ⟨false, cooldownMs - ((now : Int) - (e.createdAt : Int)) * 1000, some e⟩ ∧
        0 < cooldownMs - ((now : Int) - (e.createdAt : Int)) * 1000 ∧
        cooldownMs - ((now : Int) - (e.createdAt : Int)) * 1000 ≤ cooldownMs)) ∧
    ((canSubmitStressEntry cooldownMs now db userId).canSubmit = true →
      ∀ x ∈ db, x.userId = userId →
        cooldownMs ≤ ((now : Int) - (x.createdAt : Int)) * 1000) := by
  refine ⟨?_, ?_, ?_⟩
  · intro h
    rw [canSubmitStressEntry, h, cooldownGate_none]
  · intro e he
    constructor
    · intro hle
      rw [canSubmitStressEntry, he, cooldownGate_allows _ _ _ hle]
    · intro hlt
      have hcl : e.createdAt ≤ now := hclock e he
      refine ⟨by rw [canSubmitStressEntry, he, cooldownGate_reject _ _ _ hlt], ?_, ?_⟩
      · omega
      · omega
  · intro hcs x hx hux
    cases hl : latestMatching (fun x => x.userId == userId) db with
    | none =>
      have := latestMatching_none_forall _ db hl x hx
      simp [hux] at this
    | some e =>
      rw [canSubmitStressEntry, hl] at hcs
      have hmax := (latestMatching_spec _ db e hl).2.2 x hx (by simp [hux])
      have hadm := cooldownGate_true cooldownMs now (some e) hcs e rfl
      have hcl : e.createdAt ≤ now := hclock e hl
      omega

/-- Witness for C1 at a concrete rejecting input: one reading at t = 100 s,
check at t = 200 s with a 300 000 ms cooldown. -/
theorem canSubmitStressEntry_cooldown_spec_witness :
    (∀ e, latestMatching (fun x => x.userId == (7 : Nat))
        [⟨1, 7, 50, false, 100⟩] = some e → e.createdAt ≤ 200) ∧
    (canSubmitStressEntry 300000 200 [⟨1, 7, 50, false, 100⟩] 7 =
        ⟨false, 300000 - ((200 : Int) - (100 : Int)) * 1000, some ⟨1, 7, 50, false, 100⟩⟩ ∧
      0 < (300000 : Int) - ((200 : Int) - (100 : Int)) * 1000 ∧
      (300000 : Int) - ((200 : Int) - (100 : Int)) * 1000 ≤ 300000) := by
  have hclock : ∀ e, latestMatching (fun x => x.userId == (7 : Nat))
      [⟨1, 7, 50, false, 100⟩] = some e → e.createdAt ≤ 200 := by
    intro e he
    rw [show latestMatching (fun x => x.userId == (7 : Nat)) [⟨1, 7, 50, false, 100⟩] =
      some ⟨1, 7, 50, false, 100⟩ from rfl] at he
    cases he
    decide
  refine ⟨hclock, ?_⟩
  exact ((canSubmitStressEntry_cooldown_spec 300000 200 [⟨1, 7, 50, false, 100⟩] 7
    hclock).2.1 ⟨1, 7, 50, false, 100⟩ rfl).2 (by decide)

/-! ## C2 — (in)dependence of the two cooldowns -/

theorem canSubmitSuperstress_append_regular (c : Int) (n : Nat) (db : List Entry)
    (u : Nat) (e : Entry) (h : e.isSuperstress = false) :
    canSubmitSuperstress c n (db ++ [e]) u = canSubmitSuperstress c n db u := by
  rw [canSubmitSuperstress, canSubmitSuperstress,
    latestMatching_append_not _ _ _ (by simp [h])]

theorem postStress_store_cases (c : Int) (now : Nat) (st : Store) (uid : Nat)
    (level : Int) :
    (postStress c now st uid level).2.entries = st.entries ∨
    ∃ e, e.isSuperstress = false ∧
      (postStress c now st uid level).2.entries = st.entries ++ [e] := by
  rw [postStress]
  by_cases h1 : (100 : Int) < clampNonneg level
  · rw [if_pos h1]; left; rfl
  · rw [if_neg h1]
    by_cases h2 : (canSubmitStressEntry c now st.entries uid).canSubmit = true
    · rw [if_pos h2]
      right
      exact ⟨_, rfl, rfl⟩
    · rw [if_neg h2]; left; rfl

/-- C2, counterexample: submitting a superstress reading does change the
result of `canSubmitStressEntry`.  With an empty store, user 5 may submit a
regular reading; right after a superstress submission at the same instant,
the regular check (which looks at the most recent reading of any kind)
rejects. -/
theorem superstress_changes_regular_check :
    canSubmitStressEntry 300000 1000
        (postSuperstress 86400000 1000 ⟨[], 1⟩ 5).2.entries 5 ≠
      canSubmitStressEntry 300000 1000 ([] : List Entry) 5 := by
  decide

/-- C2 (amended): the superstress cooldown check considers only
`isSuperstress = true` readings, so a regular submission (whatever its
outcome) never changes the result of `canSubmitSuperstress` for any user;
the converse direction fails because the regular check considers the most
recent reading of any kind, including superstress ones. -/
theorem regular_submission_preserves_superstress_check
    (c₁ c₂ : Int) (now now₂ : Nat) (st : Store) (uid₁ uid₂ : Nat) (level : Int) :
    canSubmitSuperstress c₂ now₂ (postStress c₁ now st uid₁ level).2.entries uid₂ =
      canSubmitSuperstress c₂ now₂ st.entries uid₂ := by
  rcases postStress_store_cases c₁ now st uid₁ level with h | ⟨e, he, h⟩
  · rw [h]
  · rw [h, canSubmitSuperstress_append_regular _ _ _ _ _ he]

/-! ## C3 — the split-range invariant of the write path -/

/-- The split-range invariant on one persisted row: a superstress row carries
exactly level 200, a regular row a level in `[0, 100]`. -/
def entryInvariant (e : Entry) : Prop :=
  (e.isSuperstress = true → e.stressLevel = 200) ∧
  (e.isSuperstress = false → 0 ≤ e.stressLevel ∧ e.stressLevel ≤ 100)

/-- C3: both submission handlers preserve the split-range invariant: every
row persisted through `POST /` is a non-superstress row with level in
`[0, 100]`, and every row persisted through `POST /superstress` is a
superstress row with level exactly 200. -/
theorem write_path_preserves_invariant (c₁ c₂ : Int) (now : Nat) (st : Store)
    (uid : Nat) (level : Int)
    (hinv : ∀ e ∈ st.entries, entryInvariant e) :
    (∀ e ∈ (postStress c₁ now st uid level).2.entries, entryInvariant e) ∧
    (∀ e ∈ (postSuperstress c₂ now st uid).2.entries, entryInvariant e) := by
  constructor
  · rw [postStress]
    by_cases h1 : (100 : Int) < clampNonneg level
    · rw [if_pos h1]; exact hinv
    · rw [if_neg h1]
      by_cases h2 : (canSubmitStressEntry c₁ now st.entries uid).canSubmit = true
      · rw [if_pos h2]
        intro e hee
        have hee2 : e ∈ st.entries ∨
            e = ⟨st.nextId, uid, max 0 (min 200 (clampNonneg level)), false, now⟩ := by
          simpa [createEntry] using hee
        rcases hee2 with hee | rfl
        · exact hinv e hee
        · constructor
          · intro h; simp at h
          · intro _
            have h100 : clampNonneg level ≤ 100 := le_of_not_lt h1
            have h0 : (0 : Int) ≤ clampNonneg level := by
              rw [clampNonneg]; split <;> omega
            constructor
            · exact le_max_left 0 _
            · simp only [Entry.stressLevel]
              omega
      · rw [if_neg h2]; exact hinv
  · rw [postSuperstress]
    by_cases h2 : (canSubmitSuperstress c₂ now st.entries uid).canSubmit = true
    · rw [if_pos h2]
      intro e hee
      have hee2 : e ∈ st.entries ∨
          e = ⟨st.nextId, uid, max 0 (min 200 (200 : Int)), true, now⟩ := by
        simpa [createEntry] using hee
      rcases hee2 with hee | rfl
      · exact hinv e hee
      · constructor
        · intro _
          norm_num
        · intro h; simp at h
    · rw [if_neg h2]; exact hinv

/-- Witness for C3: starting from the empty store, a regular submission of
level 42 and a superstress submission both leave only invariant-satisfying
rows. -/
theorem write_path_preserves_invariant_witness :
    (∀ e ∈ (⟨[], 1⟩ : Store).entries, entryInvariant e) ∧
    (∀ e ∈ (postStress 300000 1000 ⟨[], 1⟩ 5 42).2.entries, entryInvariant e) ∧
    (∀ e ∈ (postSuperstress 86400000 1000 ⟨[], 1⟩ 5).2.entries, entryInvariant e) := by
  have h0 : ∀ e ∈ (⟨[], 1⟩ : Store).entries, entryInvariant e := by
    intro e he; simp at he
  have h := write_path_preserves_invariant 300000 86400000 1000 ⟨[], 1⟩ 5 42 h0
  exact ⟨h0, h.1, h.2⟩

/-! ## C10 — a rejected submission never touches the store -/

/-- C10: when the cooldown check rejects, each handler returns the
rate-limited result — carrying the check's `timeRemaining` and the last
qualifying entry's timestamp — and the store is unchanged (`create` is never
called). -/
theorem rejected_submission_is_atomic (c₁ c₂ : Int) (now : Nat) (st : Store)
    (uid : Nat) (level : Int) (hlev : level ≤ 100) :
    ((canSubmitStressEntry c₁ now st.entries uid).canSubmit = false →
      ∃ e, (canSubmitStressEntry c₁ now st.entries uid).lastEntry = some e ∧
        postStress c₁ now st uid level =
          (.rateLimited (canSubmitStressEntry c₁ now st.entries uid).timeRemaining
            e.createdAt, st)) ∧
    ((canSubmitSuperstress c₂ now st.entries uid).canSubmit = false →
      ∃ e, (canSubmitSuperstress c₂ now st.entries uid).lastEntry = some e ∧
        postSuperstress c₂ now st uid =
          (.rateLimited (canSubmitSuperstress c₂ now st.entries uid).timeRemaining
            e.createdAt, st)) := by
  constructor
  · intro hfalse
    rcases cooldownGate_false c₁ now _ hfalse with ⟨e, he, _, heq⟩
    have hne : ¬ ((canSubmitStressEntry c₁ now st.entries uid).canSubmit = true) := by
      simp [hfalse]
    refine ⟨e, ?_, ?_⟩
    · rw [canSubmitStressEntry, heq]
    · rw [postStress]
      have hle : ¬ (100 : Int) < clampNonneg level := by
        rw [clampNonneg]; split <;> omega
      rw [if_neg hle, if_neg hne, canSubmitStressEntry, heq]
      rfl
  · intro hfalse
    rcases cooldownGate_false c₂ now _ hfalse with ⟨e, he, _, heq⟩
    have hne : ¬ ((canSubmitSuperstress c₂ now st.entries uid).canSubmit = true) := by
      simp [hfalse]
    refine ⟨e, ?_, ?_⟩
    · rw [canSubmitSuperstress, heq]
    · rw [postSuperstress]
      rw [if_neg hne, canSubmitSuperstress, heq]
      rfl

/-- Witness for C10: a store holding one fresh superstress row at t = 1000 s;
at t = 1000 s both checks reject and both handlers answer 429 leaving the
store unchanged. -/
theorem rejected_submission_is_atomic_witness :
    ((50 : Int) ≤ 100) ∧
    ((canSubmitStressEntry 300000 1000
        (⟨[⟨1, 5, 200, true, 1000⟩], 2⟩ : Store).entries 5).canSubmit = false) ∧
    (∃ e, (canSubmitStressEntry 300000 1000
          (⟨[⟨1, 5, 200, true, 1000⟩], 2⟩ : Store).entries 5).lastEntry = some e ∧
        postStress 300000 1000 ⟨[⟨1, 5, 200, true, 1000⟩], 2⟩ 5 50 =
          (.rateLimited (canSubmitStressEntry 300000 1000
            (⟨[⟨1, 5, 200, true, 1000⟩], 2⟩ : Store).entries 5).timeRemaining
            e.createdAt, ⟨[⟨1, 5, 200, true, 1000⟩], 2⟩)) := by
  refine ⟨by decide, by decide, ?_⟩
  exact (rejected_submission_is_atomic 300000 86400000 1000
    ⟨[⟨1, 5, 200, true, 1000⟩], 2⟩ 5 50 (by decide)).1 (by decide)

/-! ## The connection registry (`src/plugins/websocket.js`) -/

/-- A live transport handle: `cid` models the connection object's identity,
`readyState` the socket state (1 = OPEN), `sendFails` whether
`connection.socket.send` throws. -/
structure Conn where
  cid : Nat
  readyState : Nat
  sendFails : Bool
deriving DecidableEq, Repr

/-- The registry's two collections: `connectedClients` (a `Map` from userId
to a `Set` of connections, in insertion order) and `anonymousConnections`
(a `Set` of connections, in insertion order). -/
structure Registry where
  connectedClients : List (Nat × List Conn)
  anonymousConnections : List Conn
deriving DecidableEq, Repr

/-- The JS truthiness guard `excludeUserId && userId === excludeUserId` of
`broadcastToAuthenticated` (a missing or zero `excludeUserId` is falsy,
so nothing is excluded). -/
def isExcluded (excludeUserId : Option Nat) (userId : Nat) : Bool :=
  match excludeUserId with
  | none => false
  | some e => e != 0 && userId == e

/-- Sending to one user's connection set, with no try/catch: open
connections are sent to in order, closed ones silently skipped, and a
throwing send aborts the whole iteration.  Returns the cids actually
delivered to and the faulting cid, if any. -/
def sendAll : List Conn → List Nat × Option Nat
  | [] => ([], none)
  | c :: rest =>
    if c.readyState == 1 then
      if c.sendFails then ([], some c.cid)
      else
        let r := sendAll rest
        (c.cid :: r.1, r.2)
    else sendAll rest

/-- The `for (const [userId, connections] of connectedClients.entries())`
loop of `broadcastToAuthenticated`: excluded users are skipped; a send
exception propagates (aborting delivery to all later entries and pruning
nothing). -/
def broadcastAuthLoop (excl : Option Nat) :
    List (Nat × List Conn) → List Nat × Option Nat
  | [] => ([], none)
  | (uid, conns) :: rest =>
    if isExcluded excl uid then broadcastAuthLoop excl rest
    else
      match sendAll conns with
      | (d, some f) => (d, some f)
      | (d, none) =>
        let r := broadcastAuthLoop excl rest
        (d ++ r.1, r.2)

/-- `broadcastToAuthenticated(message, excludeUserId)`: delivered cids and
the faulting cid, if a send threw (the registry is not modified either
way). -/
def broadcastToAuthenticated (reg : Registry) (excludeUserId : Option Nat) :
    List Nat × Option Nat :=
  broadcastAuthLoop excludeUserId reg.connectedClients

/-- The `for (const connection of anonymousConnections)` loop of
`broadcastToAnonymous`: each send is wrapped in try/catch, so an open
connection whose send throws is deleted from the set and iteration
continues; closed connections are skipped and kept.  Returns delivered
cids and the surviving set. -/
def anonSend : List Conn → List Nat × List Conn
  | [] => ([], [])
  | c :: rest =>
    if c.readyState == 1 then
      if c.sendFails then anonSend rest
      else
        let r := anonSend rest
        (c.cid :: r.1, c :: r.2)
    else
      let r := anonSend rest
      (r.1, c :: r.2)

/-- `broadcastToAnonymous(message)`: delivered cids and the updated
registry. -/
def broadcastToAnonymous (reg : Registry) : List Nat × Registry :=
  let r := anonSend reg.anonymousConnections
  (r.1, { reg with anonymousConnections := r.2 })

/-- `connectedClients.get(userId)` (first entry with that key). -/
def lookupClients (m : List (Nat × List Conn)) (k : Nat) : Option (List Conn) :=
  (m.find? (fun p => p.1 == k)).map (fun p => p.2)

/-- In-place mutation of the `Set` stored under key `k`. -/
def setClients (m : List (Nat × List Conn)) (k : Nat) (v : List Conn) :
    List (Nat × List Conn) :=
  m.map (fun p => if p.1 == k then (k, v) else p)

/-- `connectedClients.delete(userId)`. -/
def removeKey (m : List (Nat × List Conn)) (k : Nat) : List (Nat × List Conn) :=
  m.filter (fun p => p.1 != k)

/-- `userConnections.delete(connection)` / `anonymousConnections.delete(connection)`
(removal by object identity). -/
def removeConn (conns : List Conn) (c : Conn) : List Conn :=
  conns.filter (fun x => x.cid != c.cid)

/-- The close-hook installed by `registerAuthenticatedClient`: delete the
connection from the user's set if the user still has one, then delete the
user's entry entirely if the set became empty. -/
def cleanupAuthenticated (reg : Registry) (userId : Nat) (c : Conn) : Registry :=
  match lookupClients reg.connectedClients userId with
  | none => reg
  | some conns =>
    if (removeConn conns c).length == 0 then
      { reg with connectedClients := removeKey reg.connectedClients userId }
    else
      { reg with
          connectedClients := setClients reg.connectedClients userId (removeConn conns c) }

/-- The cleanup shared by the close-hook, error-hook and failed heartbeat of
`registerAnonymousClient`: cancel the ping timer and delete the connection
from the anonymous set. -/
def cleanupAnonymous (reg : Registry) (c : Conn) : Registry :=
  { reg with anonymousConnections := removeConn reg.anonymousConnections c }

/-- The counts returned by `getConnectionStats`. -/
structure ConnectionStats where
  authenticatedUsers : Nat
  authenticatedConnections : Nat
  anonymousConnections : Nat
  total : Nat
deriving DecidableEq, Repr

/-- `getConnectionStats()`. -/
def getConnectionStats (reg : Registry) : ConnectionStats :=
  let authenticatedCount := (reg.connectedClients.map (fun p => p.2.length)).sum
  ⟨reg.connectedClients.length, authenticatedCount,
    reg.anonymousConnections.length,
    authenticatedCount + reg.anonymousConnections.length⟩

/-! ## Characterizations of the broadcast loops -/

theorem sendAll_no_fail (conns : List Conn)
    (h : ∀ c ∈ conns, c.readyState = 1 → c.sendFails = false) :
    sendAll conns =
      ((conns.filter (fun c => c.readyState == 1)).map (fun c => c.cid), none) := by
  induction conns with
  | nil => rfl
  | cons c rest ih =>
    have hr := ih fun x hx => h x (List.mem_cons_of_mem _ hx)
    by_cases hs : c.readyState == 1
    · have hopen : c.readyState = 1 := by simpa using hs
      have hf : c.sendFails = false := h c (List.mem_cons_self _ _) hopen
      simp [sendAll, hs, hf, hr]
    · simp [sendAll, hs, hr]

theorem broadcastAuthLoop_no_fail (excl : Option Nat) (m : List (Nat × List Conn))
    (h : ∀ p ∈ m, ∀ c ∈ p.2, c.readyState = 1 → c.sendFails = false) :
    broadcastAuthLoop excl m =
      (((m.filter (fun p => !(isExcluded excl p.1))).map
        (fun p => (p.2.filter (fun c => c.readyState == 1)).map (fun c => c.cid))).flatten,
       none) := by
  induction m with
  | nil => rfl
  | cons p rest ih =>
    have hrest := ih fun q hq => h q (List.mem_cons_of_mem _ hq)
    obtain ⟨uid, conns⟩ := p
    by_cases he : isExcluded excl uid
    · simp [broadcastAuthLoop, he, hrest]
    · have hsend := sendAll_no_fail conns
        (h (uid, conns) (List.mem_cons_self _ _))
      simp [broadcastAuthLoop, he, hsend, hrest]

theorem anonSend_eq (l : List Conn) :
    anonSend l =
      ((l.filter (fun c => c.readyState == 1 && !c.sendFails)).map (fun c => c.cid),
       l.filter (fun c => !(c.readyState == 1 && c.sendFails))) := by
  induction l with
  | nil => rfl
  | cons c rest ih =>
    by_cases hs : c.readyState == 1
    · by_cases hf : c.sendFails
      · simp [anonSend, hs, hf, ih]
      · simp [anonSend, hs, hf, ih]
    · simp [anonSend, hs, ih]

/-! ## Equation lemmas for the cleanup paths -/

theorem cleanupAuthenticated_none (reg : Registry) (uid : Nat) (c : Conn)
    (h : lookupClients reg.connectedClients uid = none) :
    cleanupAuthenticated reg uid c = reg := by
  unfold cleanupAuthenticated
  rw [h]

theorem cleanupAuthenticated_some (reg : Registry) (uid : Nat) (c : Conn)
    (conns : List Conn) (h : lookupClients reg.connectedClients uid = some conns) :
    cleanupAuthenticated reg uid c =
      if (removeConn conns c).length == 0 then
        { reg with connectedClients := removeKey reg.connectedClients uid }
      else
        { reg with
            connectedClients := setClients reg.connectedClients uid (removeConn conns c) } := by
  unfold cleanupAuthenticated
  rw [h]

theorem find?_removeKey (m : List (Nat × List Conn)) (k : Nat) :
    (removeKey m k).find? (fun p => p.1 == k) = none := by
  rw [List.find?_eq_none]
  intro x hx
  have := (List.mem_filter.mp hx).2
  simpa using this

theorem lookupClients_removeKey (m : List (Nat × List Conn)) (k : Nat) :
    lookupClients (removeKey m k) k = none := by
  rw [lookupClients, find?_removeKey]
  rfl

theorem find?_setClients (m : List (Nat × List Conn)) (k : Nat) (v : List Conn)
    (h : ∃ q, m.find? (fun p => p.1 == k) = some q) :
    (setClients m k v).find? (fun p => p.1 == k) = some (k, v) := by
  induction m with
  | nil => simp at h
  | cons p rest ih =>
    by_cases hp : (p.1 == k) = true
    · simp only [setClients, List.map_cons]
      rw [if_pos hp]
      simp [List.find?_cons]
    · have hpf : (p.1 == k) = false := by simpa using hp
      have h2 : ∃ q, rest.find? (fun p => p.1 == k) = some q := by
        rcases h with ⟨q, hq⟩
        simp only [List.find?_cons, hpf, cond_false] at hq
        exact ⟨q, hq⟩
      have hrec := ih h2
      simp only [setClients, List.map_cons] at hrec ⊢
      rw [if_neg hp]
      simp only [List.find?_cons, hpf, cond_false]
      exact hrec

theorem lookupClients_setClients (m : List (Nat × List Conn)) (k : Nat)
    (v : List Conn) (h : ∃ q, m.find? (fun p => p.1 == k) = some q) :
    lookupClients (setClients m k v) k = some v := by
  rw [lookupClients, find?_setClients m k v h]
  rfl

theorem removeConn_idem (l : List Conn) (c : Conn) :
    removeConn (removeConn l c) c = removeConn l c := by
  simp only [removeConn, List.filter_filter]
  exact List.filter_congr fun x _ => by cases h : (x.cid != c.cid) <;> simp [h]

theorem setClients_idem (m : List (Nat × List Conn)) (k : Nat) (v : List Conn) :
    setClients (setClients m k v) k v = setClients m k v := by
  simp only [setClients, List.map_map]
  refine List.map_congr_left ?_
  intro q _
  by_cases hq : (q.1 == k) = true
  · simp [Function.comp, hq]
  · simp [Function.comp, hq]

/-! ## C4 — exclusion semantics of the authenticated broadcast -/

/-- C4: with a nonzero excluded user `U` and no open handle whose send
throws, `broadcastToAuthenticated` completes without a fault, delivers to no
handle registered under `U`, and delivers to every open handle of every
other user.  `U ≠ 0` reflects that SQLite AUTOINCREMENT user ids start at 1
(the code's truthiness guard `excludeUserId && …` would not exclude a
user 0). -/
theorem broadcast_excludes_only_user (reg : Registry) (U : Nat) (hU : U ≠ 0)
    (hok : ∀ p ∈ reg.connectedClients, ∀ c ∈ p.2, c.readyState = 1 → c.sendFails = false)
    (hnd : ((reg.connectedClients.map (fun p => p.2.map (fun c => c.cid))).flatten).Nodup) :
    (broadcastToAuthenticated reg (some U)).2 = none ∧
    (∀ p ∈ reg.connectedClients, p.1 = U → ∀ c ∈ p.2,
      c.cid ∉ (broadcastToAuthenticated reg (some U)).1) ∧
    (∀ p ∈ reg.connectedClients, p.1 ≠ U → ∀ c ∈ p.2, c.readyState = 1 →
      c.cid ∈ (broadcastToAuthenticated reg (some U)).1) := by
  have hb := broadcastAuthLoop_no_fail (some U) reg.connectedClients hok
  rw [broadcastToAuthenticated, hb]
  refine ⟨rfl, ?_, ?_⟩
  · intro p hp hpu c hc hmem
    rw [List.mem_flatten] at hmem
    rcases hmem with ⟨s, hs, hcs⟩
    rw [List.mem_map] at hs
    rcases hs with ⟨q, hq, rfl⟩
    have hqf := List.mem_filter.mp hq
    have hqne : q.1 ≠ U := by
      intro hqe
      have hex : isExcluded (some U) q.1 = true := by
        simp [isExcluded, hqe, hU]
      simp [hex] at hqf
    rw [List.mem_map] at hcs
    rcases hcs with ⟨c2, hc2, hcc⟩
    have hc2q : c2 ∈ q.2 := (List.mem_filter.mp hc2).1
    have hpair : List.Pairwise (fun a b : Nat × List Conn =>
        List.Disjoint (a.2.map (fun c => c.cid)) (b.2.map (fun c => c.cid)))
        reg.connectedClients := by
      have hpw := (List.nodup_flatten.mp hnd).2
      rwa [List.pairwise_map] at hpw
    have hpq : p ≠ q := fun hpe => hqne (hpe ▸ hpu)
    have hsym : Symmetric (fun a b : Nat × List Conn =>
        List.Disjoint (a.2.map (fun c => c.cid)) (b.2.map (fun c => c.cid))) :=
      fun a b hab => List.Disjoint.symm hab
    have hdj : List.Disjoint (p.2.map (fun c => c.cid)) (q.2.map (fun c => c.cid)) :=
      List.Pairwise.forall hsym hpair hp hqf.1 hpq
    exact hdj (List.mem_map_of_mem _ hc) (hcc ▸ List.mem_map_of_mem _ hc2q)
  · intro p hp hpu c hc hopen
    rw [List.mem_flatten]
    refine ⟨(p.2.filter (fun c => c.readyState == 1)).map (fun c => c.cid), ?_, ?_⟩
    · rw [List.mem_map]
      refine ⟨p, ?_, rfl⟩
      rw [List.mem_filter]
      refine ⟨hp, ?_⟩
      simp [isExcluded, hpu]
    · exact List.mem_map_of_mem _ (List.mem_filter.mpr ⟨hc, by simp [hopen]⟩)

/-- Witness for C4 on a concrete registry: excluding user 1 skips their open
handle (cid 5) while user 2's open handle (cid 6) is delivered to (their
closed handle, cid 7, is skipped silently). -/
theorem broadcast_excludes_only_user_witness :
    ((1 : Nat) ≠ 0) ∧
    (broadcastToAuthenticated
      ⟨[(1, [⟨5, 1, false⟩]), (2, [⟨6, 1, false⟩, ⟨7, 0, false⟩])], []⟩ (some 1)).2 = none ∧
    (5 : Nat) ∉ (broadcastToAuthenticated
      ⟨[(1, [⟨5, 1, false⟩]), (2, [⟨6, 1, false⟩, ⟨7, 0, false⟩])], []⟩ (some 1)).1 ∧
    (6 : Nat) ∈ (broadcastToAuthenticated
      ⟨[(1, [⟨5, 1, false⟩]), (2, [⟨6, 1, false⟩, ⟨7, 0, false⟩])], []⟩ (some 1)).1 := by
  have h := broadcast_excludes_only_user
    ⟨[(1, [⟨5, 1, false⟩]), (2, [⟨6, 1, false⟩, ⟨7, 0, false⟩])], []⟩ 1
    (by decide) (by decide) (by decide)
  refine ⟨by decide, h.1, ?_, ?_⟩
  · exact h.2.1 (1, [⟨5, 1, false⟩]) (by decide) rfl ⟨5, 1, false⟩ (by decide)
  · exact h.2.2 (2, [⟨6, 1, false⟩, ⟨7, 0, false⟩]) (by decide) (by decide)
      ⟨6, 1, false⟩ (by decide) rfl

/-! ## C5 — faulting handles during broadcasts -/

/-- C5, counterexample: in `broadcastToAuthenticated` the send is not
wrapped in try/catch, so a handle whose send throws (user 1's cid 1) aborts
the whole loop: user 2's perfectly healthy open handle (cid 2) receives
nothing, and nothing is pruned (the faulting cid is reported to the
caller as an escaped exception). -/
theorem authenticated_broadcast_fault_aborts :
    (broadcastToAuthenticated
      ⟨[(1, [⟨1, 1, true⟩]), (2, [⟨2, 1, false⟩])], []⟩ none).2 = some 1 ∧
    (2 : Nat) ∉ (broadcastToAuthenticated
      ⟨[(1, [⟨1, 1, true⟩]), (2, [⟨2, 1, false⟩])], []⟩ none).1 := by
  decide

/-- C5 (amended): during the anonymous broadcast, an open handle whose send
throws is removed from the anonymous set before the call returns, and every
other open, non-throwing handle still receives the message; the authenticated
broadcast has no such protection — there a throwing send propagates, aborts
delivery to the remaining handles, and prunes nothing. -/
theorem anonymous_broadcast_prunes_and_continues (reg : Registry) (c : Conn)
    (_hc : c ∈ reg.anonymousConnections)
    (hopen : c.readyState = 1) (hfail : c.sendFails = true) :
    c ∉ (broadcastToAnonymous reg).2.anonymousConnections ∧
    (∀ x ∈ reg.anonymousConnections, x.readyState = 1 → x.sendFails = false →
      x.cid ∈ (broadcastToAnonymous reg).1) := by
  have ha := anonSend_eq reg.anonymousConnections
  constructor
  · intro hmem
    simp only [broadcastToAnonymous] at hmem
    rw [ha] at hmem
    have hpred := (List.mem_filter.mp hmem).2
    rw [hopen, hfail] at hpred
    simp at hpred
  · intro x hx hxopen hxok
    simp only [broadcastToAnonymous]
    rw [ha]
    exact List.mem_map_of_mem _ (List.mem_filter.mpr ⟨hx, by simp [hxopen, hxok]⟩)

/-- Witness for the amended C5: with anonymous handles cid 1 (open,
throwing) and cid 2 (open, healthy), the broadcast prunes cid 1 and still
delivers to cid 2. -/
theorem anonymous_broadcast_prunes_and_continues_witness :
    ((⟨1, 1, true⟩ : Conn) ∈ (⟨[], [⟨1, 1, true⟩, ⟨2, 1, false⟩]⟩ : Registry).anonymousConnections ∧
      (⟨1, 1, true⟩ : Conn).readyState = 1 ∧ (⟨1, 1, true⟩ : Conn).sendFails = true) ∧
    (⟨1, 1, true⟩ : Conn) ∉
      (broadcastToAnonymous ⟨[], [⟨1, 1, true⟩, ⟨2, 1, false⟩]⟩).2.anonymousConnections ∧
    (2 : Nat) ∈ (broadcastToAnonymous ⟨[], [⟨1, 1, true⟩, ⟨2, 1, false⟩]⟩).1 := by
  have h := anonymous_broadcast_prunes_and_continues
    ⟨[], [⟨1, 1, true⟩, ⟨2, 1, false⟩]⟩ ⟨1, 1, true⟩ (by decide) rfl rfl
  exact ⟨⟨by decide, rfl, rfl⟩, h.1, h.2 ⟨2, 1, false⟩ (by decide) rfl rfl⟩

/-! ## C6 — removing the last handle of a user -/

theorem find?_key_eq (m : List (Nat × List Conn)) (k : Nat) (q : Nat × List Conn)
    (h : m.find? (fun p => p.1 == k) = some q) : q.1 = k ∧ q ∈ m := by
  have h1 := List.find?_some h
  have h2 := List.mem_of_find?_eq_some h
  exact ⟨by simpa using h1, h2⟩

theorem removeKey_count (m : List (Nat × List Conn)) (k : Nat)
    (hk : (m.map Prod.fst).Nodup) (q : Nat × List Conn)
    (hfind : m.find? (fun p => p.1 == k) = some q) :
    m.length = (removeKey m k).length + 1 ∧
    (m.map (fun p => p.2.length)).sum =
      ((removeKey m k).map (fun p => p.2.length)).sum + q.2.length := by
  induction m with
  | nil => simp at hfind
  | cons p rest ih =>
    by_cases hp : (p.1 == k) = true
    · have hqp : q = p := by
        simp only [List.find?_cons, hp, cond_true] at hfind
        exact (Option.some.inj hfind).symm
      subst hqp
      have hkeq : q.1 = k := by simpa using hp
      have hnotin : ∀ x ∈ rest, (x.1 != k) = true := by
        intro x hx
        have hni : q.1 ∉ rest.map Prod.fst := by
          rw [List.map_cons, List.nodup_cons] at hk
          exact hk.1
        have hxne : x.1 ≠ k := by
          intro hxe
          exact hni (by rw [hkeq, ← hxe]; exact List.mem_map_of_mem _ hx)
        simpa using hxne
      have hrem : removeKey (q :: rest) k = rest := by
        simp only [removeKey, List.filter_cons]
        rw [show (q.1 != k) = false by simp [hkeq]]
        simp only [Bool.false_eq_true, if_false]
        exact List.filter_eq_self.mpr hnotin
      rw [hrem]
      constructor
      · simp
      · simp only [List.map_cons, List.sum_cons]
        omega
    · have hpf : (p.1 == k) = false := by simpa using hp
      have hfind2 : rest.find? (fun p => p.1 == k) = some q := by
        simpa [List.find?_cons, hpf] using hfind
      have hk2 : (rest.map Prod.fst).Nodup := by
        rw [List.map_cons, List.nodup_cons] at hk
        exact hk.2
      obtain ⟨ih1, ih2⟩ := ih hk2 hfind2
      have hrem : removeKey (p :: rest) k = p :: removeKey rest k := by
        simp only [removeKey, List.filter_cons]
        rw [show (p.1 != k) = true by simp [bne, hpf]]
        simp
      rw [hrem]
      constructor
      · simp only [List.length_cons]
        omega
      · simp only [List.map_cons, List.sum_cons]
        omega

/-- C6: when the close-hook removes the last remaining handle of `userId`
(whose set holds exactly that one connection), the identified collection no
longer has any entry for `userId`, the handle's cid appears nowhere in the
registry, and `getConnectionStats` immediately drops both the distinct-user
count and every handle count by one. -/
theorem close_last_handle_removes_user (reg : Registry) (userId : Nat) (c : Conn)
    (hk : (reg.connectedClients.map Prod.fst).Nodup)
    (hfind : lookupClients reg.connectedClients userId = some [c])
    (hother : ∀ p ∈ reg.connectedClients, p.1 ≠ userId → ∀ x ∈ p.2, x.cid ≠ c.cid)
    (hanon : ∀ x ∈ reg.anonymousConnections, x.cid ≠ c.cid) :
    lookupClients (cleanupAuthenticated reg userId c).connectedClients userId = none ∧
    (∀ p ∈ (cleanupAuthenticated reg userId c).connectedClients, p.1 ≠ userId) ∧
    (∀ p ∈ (cleanupAuthenticated reg userId c).connectedClients,
      ∀ x ∈ p.2, x.cid ≠ c.cid) ∧
    (∀ x ∈ (cleanupAuthenticated reg userId c).anonymousConnections, x.cid ≠ c.cid) ∧
    getConnectionStats (cleanupAuthenticated reg userId c) =
      ⟨(getConnectionStats reg).authenticatedUsers - 1,
        (getConnectionStats reg).authenticatedConnections - 1,
        (getConnectionStats reg).anonymousConnections,
        (getConnectionStats reg).total - 1⟩ := by
  have hempty : removeConn [c] c = [] := by simp [removeConn]
  have hclean : cleanupAuthenticated reg userId c =
      { reg with connectedClients := removeKey reg.connectedClients userId } := by
    rw [cleanupAuthenticated_some reg userId c [c] hfind, hempty]
    rfl
  obtain ⟨q, hfq, hq2⟩ : ∃ q, reg.connectedClients.find? (fun p => p.1 == userId) =
      some q ∧ q.2 = [c] := by
    rw [lookupClients] at hfind
    rcases Option.map_eq_some'.mp hfind with ⟨q, hq, hq2⟩
    exact ⟨q, hq, hq2⟩
  obtain ⟨hc1, hc2⟩ := removeKey_count reg.connectedClients userId hk q hfq
  have hq21 : q.2.length = 1 := by rw [hq2]; rfl
  rw [hclean]
  refine ⟨lookupClients_removeKey _ _, ?_, ?_, hanon, ?_⟩
  · intro p hp
    have := (List.mem_filter.mp hp).2
    simpa using this
  · intro p hp x hx
    have hmem := (List.mem_filter.mp hp).1
    have hne : p.1 ≠ userId := by simpa using (List.mem_filter.mp hp).2
    exact hother p hmem hne x hx
  · simp only [getConnectionStats, ConnectionStats.mk.injEq, and_true, true_and]
    omega

/-- Witness for C6: user 3 has the single handle cid 9; after the
close-hook, user 3 is gone from the identified collection and the stats
drop from `⟨2, 2, 1, 3⟩` to `⟨1, 1, 1, 2⟩`. -/
theorem close_last_handle_removes_user_witness :
    lookupClients (cleanupAuthenticated
      ⟨[(3, [⟨9, 1, false⟩]), (4, [⟨11, 1, false⟩])], [⟨20, 1, false⟩]⟩
      3 ⟨9, 1, false⟩).connectedClients 3 = none ∧
    getConnectionStats (cleanupAuthenticated
      ⟨[(3, [⟨9, 1, false⟩]), (4, [⟨11, 1, false⟩])], [⟨20, 1, false⟩]⟩
      3 ⟨9, 1, false⟩) = ⟨1, 1, 1, 2⟩ := by
  have h := close_last_handle_removes_user
    ⟨[(3, [⟨9, 1, false⟩]), (4, [⟨11, 1, false⟩])], [⟨20, 1, false⟩]⟩
    3 ⟨9, 1, false⟩ (by decide) (by decide) (by decide) (by decide)
  refine ⟨h.1, ?_⟩
  rw [h.2.2.2.2]
  decide

/-! ## C7 — cleanup is idempotent -/

/-- C7: both removal paths are idempotent: running the authenticated
close-hook or the anonymous cleanup a second time for the same handle
changes nothing — the registry (and hence every count of
`getConnectionStats`) is exactly what it was after the first run. -/
theorem cleanup_paths_idempotent (reg : Registry) (userId : Nat) (c : Conn) :
    cleanupAuthenticated (cleanupAuthenticated reg userId c) userId c =
      cleanupAuthenticated reg userId c ∧
    cleanupAnonymous (cleanupAnonymous reg c) c = cleanupAnonymous reg c ∧
    getConnectionStats (cleanupAuthenticated (cleanupAuthenticated reg userId c) userId c) =
      getConnectionStats (cleanupAuthenticated reg userId c) ∧
    getConnectionStats (cleanupAnonymous (cleanupAnonymous reg c) c) =
      getConnectionStats (cleanupAnonymous reg c) := by
  have hauth : cleanupAuthenticated (cleanupAuthenticated reg userId c) userId c =
      cleanupAuthenticated reg userId c := by
    cases hl : lookupClients reg.connectedClients userId with
    | none =>
      rw [cleanupAuthenticated_none reg userId c hl, cleanupAuthenticated_none reg userId c hl]
    | some conns =>
      rw [cleanupAuthenticated_some reg userId c conns hl]
      by_cases hz : ((removeConn conns c).length == 0) = true
      · rw [if_pos hz]
        exact cleanupAuthenticated_none _ userId c (lookupClients_removeKey _ _)
      · rw [if_neg hz]
        have hex : ∃ q, reg.connectedClients.find? (fun p => p.1 == userId) = some q := by
          rw [lookupClients] at hl
          rcases Option.map_eq_some'.mp hl with ⟨q, hq, _⟩
          exact ⟨q, hq⟩
        have hset := lookupClients_setClients reg.connectedClients userId
          (removeConn conns c) hex
        rw [cleanupAuthenticated_some _ userId c (removeConn conns c) hset]
        rw [removeConn_idem]
        rw [if_neg hz]
        rw [setClients_idem]
  have hanon2 : cleanupAnonymous (cleanupAnonymous reg c) c = cleanupAnonymous reg c := by
    simp only [cleanupAnonymous]
    rw [removeConn_idem]
  exact ⟨hauth, hanon2, by rw [hauth], by rw [hanon2]⟩

/-! ## The summary query (`getSummaryData`) -/

/-- `MAX(created_at)` grouped by user (`0` when the user has no rows; the
value is only consulted for users that do have rows). -/
def userMaxCreated (db : List Entry) (uid : Nat) : Nat :=
  ((db.filter (fun e => e.userId == uid)).map (fun e => e.createdAt)).foldl Nat.max 0

/-- The `latestEntries` rows of `getSummaryData`: the self-join keeps every
row whose `created_at` equals its user's `MAX(created_at)`, and the
`JOIN users` keeps only rows whose user exists. -/
def latestEntries (db : List Entry) (validUsers : List Nat) : List Entry :=
  db.filter (fun e => validUsers.contains e.userId &&
    e.createdAt == userMaxCreated db e.userId)

/-- `averageStressLevel` of `getSummaryData`: 0 when there are no latest
rows, else the sum of their levels divided by their count. -/
def averageStressLevel (db : List Entry) (validUsers : List Nat) : Rat :=
  if (latestEntries db validUsers).length = 0 then 0
  else (((latestEntries db validUsers).map (fun e => e.stressLevel)).sum : Int) /
    ((latestEntries db validUsers).length : Rat)

/-- Modelled from the spec: the set of users that have at least one
reading. -/
def usersWithReadings (db : List Entry) : Finset Nat :=
  (db.map (fun e => e.userId)).toFinset

/-- Modelled from the spec: the level of one user's single most recent
reading (0 when the user has none; only consulted for users that have
one). -/
def latestLevelOf (db : List Entry) (uid : Nat) : Int :=
  ((latestMatching (fun e => e.userId == uid) db).map (fun e => e.stressLevel)).getD 0

/-- Modelled from the spec: the arithmetic mean of each user's single most
recent reading's level, over exactly the set of users that have at least
one reading. -/
def specMeanLatest (db : List Entry) : Rat :=
  if (usersWithReadings db).card = 0 then 0
  else ((Finset.sum (usersWithReadings db) (fun u => latestLevelOf db u) : Int) : Rat) /
    ((usersWithReadings db).card : Rat)

/-! ### Facts about `foldl Nat.max` and `userMaxCreated` -/

theorem le_foldl_max (l : List Nat) (a : Nat) : a ≤ l.foldl Nat.max a := by
  induction l generalizing a with
  | nil => exact le_refl a
  | cons x xs ih => exact le_trans (Nat.le_max_left a x) (ih (Nat.max a x))

theorem mem_le_foldl_max (l : List Nat) (a : Nat) : ∀ x ∈ l, x ≤ l.foldl Nat.max a := by
  induction l generalizing a with
  | nil => intro x hx; simp at hx
  | cons y ys ih =>
    intro x hx
    rcases List.mem_cons.mp hx with rfl | hx
    · exact le_trans (Nat.le_max_right a x) (le_foldl_max ys (Nat.max a x))
    · exact ih (Nat.max a y) x hx

theorem foldl_max_mem (l : List Nat) (a : Nat) :
    l.foldl Nat.max a = a ∨ l.foldl Nat.max a ∈ l := by
  induction l generalizing a with
  | nil => left; rfl
  | cons y ys ih =>
    rcases ih (Nat.max a y) with h | h
    · by_cases hay : a ≤ y
      · right
        have hm : Nat.max a y = y := max_eq_right hay
        rw [List.foldl_cons, h, hm]
        exact List.mem_cons_self _ _
      · left
        have hm : Nat.max a y = a := max_eq_left (le_of_not_le hay)
        rw [List.foldl_cons, h, hm]
    · right
      rw [List.foldl_cons]
      exact List.mem_cons_of_mem _ h

theorem createdAt_le_userMax (db : List Entry) (e : Entry) (he : e ∈ db) :
    e.createdAt ≤ userMaxCreated db e.userId := by
  apply mem_le_foldl_max
  exact List.mem_map_of_mem _ (List.mem_filter.mpr ⟨he, by simp⟩)

theorem userMax_attained (db : List Entry) (uid : Nat) (x : Entry) (hx : x ∈ db)
    (hux : x.userId = uid) :
    ∃ e ∈ db, e.userId = uid ∧ e.createdAt = userMaxCreated db uid := by
  rcases foldl_max_mem ((db.filter (fun e => e.userId == uid)).map
      (fun e => e.createdAt)) 0 with h | h
  · refine ⟨x, hx, hux, ?_⟩
    have hle : x.createdAt ≤ userMaxCreated db uid := by
      apply mem_le_foldl_max
      exact List.mem_map_of_mem _ (List.mem_filter.mpr ⟨hx, by simp [hux]⟩)
    rw [userMaxCreated] at hle ⊢
    omega
  · rcases List.mem_map.mp h with ⟨e, hef, hee⟩
    have hmem := List.mem_filter.mp hef
    exact ⟨e, hmem.1, by simpa using hmem.2, hee⟩

/-- Under distinct per-user timestamps, attaining the user's maximal
`created_at` is the same as being the row `latestMatching` returns. -/
theorem latest_iff_max (db : List Entry)
    (hties : ∀ e1 ∈ db, ∀ e2 ∈ db, e1.userId = e2.userId →
      e1.createdAt = e2.createdAt → e1 = e2)
    (e : Entry) (he : e ∈ db) :
    e.createdAt = userMaxCreated db e.userId ↔
      latestMatching (fun x => x.userId == e.userId) db = some e := by
  constructor
  · intro hmax
    cases hl : latestMatching (fun x => x.userId == e.userId) db with
    | none =>
      have := latestMatching_none_forall _ db hl e he
      simp at this
    | some m =>
      obtain ⟨hm_mem, hm_p, hm_max⟩ := latestMatching_spec _ db m hl
      have hmu : m.userId = e.userId := by simpa using hm_p
      have h1 : e.createdAt ≤ m.createdAt := hm_max e he (by simp)
      have h2 : m.createdAt ≤ userMaxCreated db e.userId := by
        have := createdAt_le_userMax db m hm_mem
        rwa [hmu] at this
      have heq : m.createdAt = e.createdAt := by omega
      exact congrArg some (hties m hm_mem e he hmu heq)
  · intro hl
    obtain ⟨_, _, hmax⟩ := latestMatching_spec _ db e hl
    obtain ⟨m, hm, hmu, hmc⟩ := userMax_attained db e.userId e he rfl
    have h1 : m.createdAt ≤ e.createdAt := hmax m hm (by simp [hmu])
    have h2 : e.createdAt ≤ userMaxCreated db e.userId := createdAt_le_userMax db e he
    omega

/-! ### Bridging list sums to finset sums -/

theorem list_sum_eq_toFinset_sum (l : List Entry) (hnd : l.Nodup) (f : Entry → Int) :
    (l.map f).sum = Finset.sum l.toFinset f := by
  induction l with
  | nil => simp
  | cons e rest ih =>
    rw [List.nodup_cons] at hnd
    rw [List.map_cons, List.sum_cons, List.toFinset_cons,
      Finset.sum_insert (by simpa using hnd.1), ih hnd.2]

theorem list_length_eq_toFinset_card (l : List Entry) (hnd : l.Nodup) :
    l.length = l.toFinset.card := by
  induction l with
  | nil => simp
  | cons e rest ih =>
    rw [List.nodup_cons] at hnd
    rw [List.length_cons, List.toFinset_cons,
      Finset.card_insert_of_not_mem (by simpa using hnd.1), ih hnd.2]

/-! ## C8 — the summary average -/

/-- C8, counterexample: the claimed equality fails on a reachable tie
state.  Starting from the empty store, user 1 submits a regular reading
(level 20) and then a superstress (level 200) within the same second — the
superstress gate looks only at `is_superstress = 1` rows, so both are
admitted and share `created_at = 100` — and user 2 submits level 80.  The
self-join of `getSummaryData` keeps both of user 1's tied rows, so the
code's average is `(20 + 200 + 80) / 3 = 100`, while the mean of each
user's single most recent reading is `(200 + 80) / 2 = 140`. -/
theorem summary_average_tie_counterexample :
    (postStress 300000 100
        (postSuperstress 86400000 100
          (postStress 300000 100 ⟨[], 1⟩ 1 20).2 1).2 2 80).2.entries =
      [⟨1, 1, 20, false, 100⟩, ⟨2, 1, 200, true, 100⟩, ⟨3, 2, 80, false, 100⟩] ∧
    averageStressLevel
        [⟨1, 1, 20, false, 100⟩, ⟨2, 1, 200, true, 100⟩, ⟨3, 2, 80, false, 100⟩]
        [1, 2] ≠
      specMeanLatest
        [⟨1, 1, 20, false, 100⟩, ⟨2, 1, 200, true, 100⟩, ⟨3, 2, 80, false, 100⟩] := by
  constructor
  · decide
  · have h1 : averageStressLevel
        [⟨1, 1, 20, false, 100⟩, ⟨2, 1, 200, true, 100⟩, ⟨3, 2, 80, false, 100⟩]
        [1, 2] = 100 := by
      rw [averageStressLevel,
        show latestEntries
          [⟨1, 1, 20, false, 100⟩, ⟨2, 1, 200, true, 100⟩, ⟨3, 2, 80, false, 100⟩]
          [1, 2] =
          [⟨1, 1, 20, false, 100⟩, ⟨2, 1, 200, true, 100⟩, ⟨3, 2, 80, false, 100⟩]
          by decide]
      norm_num
    have h2 : specMeanLatest
        [⟨1, 1, 20, false, 100⟩, ⟨2, 1, 200, true, 100⟩, ⟨3, 2, 80, false, 100⟩] =
        140 := by
      rw [specMeanLatest,
        show usersWithReadings
          [⟨1, 1, 20, false, 100⟩, ⟨2, 1, 200, true, 100⟩, ⟨3, 2, 80, false, 100⟩] =
          ({1, 2} : Finset Nat) by decide,
        show Finset.sum ({1, 2} : Finset Nat) (fun u => latestLevelOf
          [⟨1, 1, 20, false, 100⟩, ⟨2, 1, 200, true, 100⟩, ⟨3, 2, 80, false, 100⟩] u) =
          280 by decide,
        show (({1, 2} : Finset Nat)).card = 2 by decide]
      norm_num
    rw [h1, h2]
    norm_num

/-- C8 (amended): when no two readings of one user share a `created_at`
(the tie case — reachable by a regular and a superstress submission within
the same second — makes the self-join keep both rows and double-count that
user) and every row's user exists in the `users` table,
`averageStressLevel` equals the arithmetic mean of each user's single most
recent reading's level, over exactly the set of users with at least one
reading. -/
theorem averageStressLevel_eq_mean_of_latest (db : List Entry) (validUsers : List Nat)
    (hnd : db.Nodup)
    (hties : ∀ e1 ∈ db, ∀ e2 ∈ db, e1.userId = e2.userId →
      e1.createdAt = e2.createdAt → e1 = e2)
    (hfk : ∀ e ∈ db, e.userId ∈ validUsers) :
    averageStressLevel db validUsers = specMeanLatest db := by
  have hL : latestEntries db validUsers =
      db.filter (fun e => e.createdAt == userMaxCreated db e.userId) := by
    rw [latestEntries]
    apply List.filter_congr
    intro e he
    have : validUsers.contains e.userId = true := by
      have := hfk e he
      simpa using this
    rw [this, Bool.true_and]
  have hmemL : ∀ e, e ∈ latestEntries db validUsers ↔
      e ∈ db ∧ latestMatching (fun x => x.userId == e.userId) db = some e := by
    intro e
    rw [hL, List.mem_filter]
    constructor
    · rintro ⟨hedb, hemax⟩
      exact ⟨hedb, (latest_iff_max db hties e hedb).mp (by simpa using hemax)⟩
    · rintro ⟨hedb, hlm⟩
      exact ⟨hedb, by simpa using (latest_iff_max db hties e hedb).mpr hlm⟩
  have hLnd : (latestEntries db validUsers).Nodup := by
    rw [hL]; exact hnd.filter _
  have hmapsto : ∀ e ∈ (latestEntries db validUsers).toFinset,
      e.userId ∈ usersWithReadings db := by
    intro e he
    rw [List.mem_toFinset] at he
    have hedb := ((hmemL e).mp he).1
    rw [usersWithReadings, List.mem_toFinset]
    exact List.mem_map_of_mem _ hedb
  have hinj : ∀ e1 ∈ (latestEntries db validUsers).toFinset,
      ∀ e2 ∈ (latestEntries db validUsers).toFinset,
      e1.userId = e2.userId → e1 = e2 := by
    intro e1 he1 e2 he2 hu
    rw [List.mem_toFinset] at he1 he2
    have h1 := ((hmemL e1).mp he1).2
    have h2 := ((hmemL e2).mp he2).2
    rw [hu] at h1
    rw [h1] at h2
    exact Option.some.inj h2
  have hsurj : ∀ u ∈ usersWithReadings db,
      ∃ e ∈ (latestEntries db validUsers).toFinset, e.userId = u := by
    intro u hu
    rw [usersWithReadings, List.mem_toFinset] at hu
    rcases List.mem_map.mp hu with ⟨x, hx, hxu⟩
    obtain ⟨m, hm, hmu, hmc⟩ := userMax_attained db u x hx hxu
    refine ⟨m, ?_, hmu⟩
    rw [List.mem_toFinset, hmemL]
    refine ⟨hm, ?_⟩
    rw [← (latest_iff_max db hties m hm)]
    rw [hmu, hmc]
  have hval : ∀ e ∈ (latestEntries db validUsers).toFinset,
      e.stressLevel = latestLevelOf db e.userId := by
    intro e he
    rw [List.mem_toFinset] at he
    have h := ((hmemL e).mp he).2
    rw [latestLevelOf, h]
    rfl
  have hsum : ((latestEntries db validUsers).map (fun e => e.stressLevel)).sum =
      Finset.sum (usersWithReadings db) (fun u => latestLevelOf db u) := by
    rw [list_sum_eq_toFinset_sum _ hLnd]
    exact Finset.sum_bij (fun e _ => e.userId) hmapsto
      (fun e1 he1 e2 he2 h => hinj e1 he1 e2 he2 h)
      (fun u hu => by
        rcases hsurj u hu with ⟨e, he, heu⟩
        exact ⟨e, he, heu⟩)
      (fun e he => hval e he)
  have hcard : (latestEntries db validUsers).length = (usersWithReadings db).card := by
    rw [list_length_eq_toFinset_card _ hLnd]
    exact Finset.card_bij (fun e _ => e.userId) hmapsto
      (fun e1 he1 e2 he2 h => hinj e1 he1 e2 he2 h)
      (fun u hu => by
        rcases hsurj u hu with ⟨e, he, heu⟩
        exact ⟨e, he, heu⟩)
  rw [averageStressLevel, specMeanLatest]
  simp only [hcard, hsum]

/-- Witness for C8 at the spec's own scenario: two users whose latest
readings are 20 and 80 average to 50; after a third user's first-ever
reading of 0 the average is 100/3. -/
theorem averageStressLevel_eq_mean_of_latest_witness :
    averageStressLevel
        [⟨1, 1, 20, false, 100⟩, ⟨2, 2, 80, false, 110⟩] [1, 2, 3] = 50 ∧
    averageStressLevel
        [⟨1, 1, 20, false, 100⟩, ⟨2, 2, 80, false, 110⟩, ⟨3, 3, 0, false, 120⟩]
        [1, 2, 3] = 100 / 3 := by
  constructor
  · rw [averageStressLevel_eq_mean_of_latest
      [⟨1, 1, 20, false, 100⟩, ⟨2, 2, 80, false, 110⟩] [1, 2, 3]
      (by decide) (by decide) (by decide)]
    rw [specMeanLatest,
      show usersWithReadings [⟨1, 1, 20, false, 100⟩, ⟨2, 2, 80, false, 110⟩] =
        ({1, 2} : Finset Nat) by decide,
      show Finset.sum ({1, 2} : Finset Nat) (fun u => latestLevelOf
        [⟨1, 1, 20, false, 100⟩, ⟨2, 2, 80, false, 110⟩] u) = 100 by decide,
      show (({1, 2} : Finset Nat)).card = 2 by decide]
    norm_num
  · rw [averageStressLevel_eq_mean_of_latest
      [⟨1, 1, 20, false, 100⟩, ⟨2, 2, 80, false, 110⟩, ⟨3, 3, 0, false, 120⟩] [1, 2, 3]
      (by decide) (by decide) (by decide)]
    rw [specMeanLatest,
      show usersWithReadings
        [⟨1, 1, 20, false, 100⟩, ⟨2, 2, 80, false, 110⟩, ⟨3, 3, 0, false, 120⟩] =
        ({1, 2, 3} : Finset Nat) by decide,
      show Finset.sum ({1, 2, 3} : Finset Nat) (fun u => latestLevelOf
        [⟨1, 1, 20, false, 100⟩, ⟨2, 2, 80, false, 110⟩, ⟨3, 3, 0, false, 120⟩] u) =
        100 by decide,
      show (({1, 2, 3} : Finset Nat)).card = 3 by decide]
    norm_num

/-! ## The update dispatcher (`src/ws/events.js`) -/

/-- The two outbound messages produced by one dispatch: the `stress-update`
point message (the created row's data) and the `summary-update` (carrying
the recomputed summary's average). -/
inductive OutMsg where
  | stressUpdate (entryId userId : Nat) (stressLevel : Int)
      (isSuperstress : Bool) (createdAt : Nat)
  | summaryUpdate (averageStressLevel : Rat)
deriving DecidableEq, Repr

/-- `broadcastStressUpdate(fastify, entry, user, funnyMessage)`: sends the
point update to authenticated clients excluding the sender (no try/catch —
a fault escapes and nothing further runs), then to anonymous clients, then
recomputes the summary from the store (`getSummaryData`) and sends the
`summary-update` to anonymous clients (`broadcastSummaryUpdate`).  Returns
the ordered send log `(cid, message)`, the updated registry, and the
escaped faulting cid, if any. -/
def broadcastStressUpdate (reg : Registry) (db : List Entry) (validUsers : List Nat)
    (e : Entry) (senderId : Nat) :
    List (Nat × OutMsg) × Registry × Option Nat :=
  match (broadcastToAuthenticated reg (some senderId)).2 with
  | some f =>
    ((broadcastToAuthenticated reg (some senderId)).1.map
        (fun cid => (cid, OutMsg.stressUpdate e.id e.userId e.stressLevel
          e.isSuperstress e.createdAt)),
      reg, some f)
  | none =>
    ((broadcastToAuthenticated reg (some senderId)).1.map
        (fun cid => (cid, OutMsg.stressUpdate e.id e.userId e.stressLevel
          e.isSuperstress e.createdAt)) ++
      (anonSend reg.anonymousConnections).1.map
        (fun cid => (cid, OutMsg.stressUpdate e.id e.userId e.stressLevel
          e.isSuperstress e.createdAt)) ++
      (anonSend (anonSend reg.anonymousConnections).2).1.map
        (fun cid => (cid, OutMsg.summaryUpdate (averageStressLevel db validUsers))),
      { reg with anonymousConnections := (anonSend (anonSend reg.anonymousConnections).2).2 },
      none)

/-- One `POST /` request together with the dispatch it triggers: the
broadcast runs only on the created path, after the store insert, reading
the already-updated store. -/
structure SubmitOutcome where
  response : StressResponse
  store : Store
  sendLog : List (Nat × OutMsg)
  registry : Registry
deriving DecidableEq, Repr

/-- The accepted path of `POST /` followed by `broadcastStressUpdate`. -/
def submitStress (cooldownMs : Int) (now : Nat) (st : Store) (reg : Registry)
    (validUsers : List Nat) (userId : Nat) (level : Int) : SubmitOutcome :=
  match postStress cooldownMs now st userId level with
  | (StressResponse.created e, st2) =>
    ⟨StressResponse.created e, st2,
      (broadcastStressUpdate reg st2.entries validUsers e userId).1,
      (broadcastStressUpdate reg st2.entries validUsers e userId).2.1⟩
  | (r, st2) => ⟨r, st2, [], reg⟩

/-! ### Helper lemmas for the dispatcher proof -/

theorem postStress_created (c : Int) (now : Nat) (st : Store) (uid : Nat)
    (level : Int) (e : Entry) (st2 : Store)
    (h : postStress c now st uid level = (StressResponse.created e, st2)) :
    st2.entries = st.entries ++ [e] := by
  rw [postStress] at h
  by_cases h1 : (100 : Int) < clampNonneg level
  · rw [if_pos h1] at h
    exact absurd h (by simp [Prod.mk.injEq])
  · rw [if_neg h1] at h
    by_cases h2 : (canSubmitStressEntry c now st.entries uid).canSubmit = true
    · rw [if_pos h2] at h
      have he : (createEntry st now uid (clampNonneg level) false).1 = e := by
        have hf := congrArg Prod.fst h
        simpa using hf
      have hst : (createEntry st now uid (clampNonneg level) false).2 = st2 :=
        congrArg Prod.snd h
      rw [← hst, ← he]
      rfl
    · rw [if_neg h2] at h
      exact absurd h (by simp [Prod.mk.injEq])

theorem sendAll_mem (conns : List Conn) (x : Nat) (hx : x ∈ (sendAll conns).1) :
    ∃ c ∈ conns, c.cid = x := by
  induction conns with
  | nil => simp [sendAll] at hx
  | cons c rest ih =>
    by_cases hs : (c.readyState == 1) = true
    · by_cases hf : c.sendFails = true
      · simp [sendAll, hs, hf] at hx
      · simp only [sendAll, hs, if_true, hf] at hx
        rw [if_neg (by simp [hf])] at hx
        rcases List.mem_cons.mp hx with rfl | hx2
        · exact ⟨c, List.mem_cons_self _ _, rfl⟩
        · rcases ih hx2 with ⟨c2, hc2, hcc⟩
          exact ⟨c2, List.mem_cons_of_mem _ hc2, hcc⟩
    · simp only [sendAll, hs] at hx
      rw [if_neg (by simp [hs])] at hx
      rcases ih hx with ⟨c2, hc2, hcc⟩
      exact ⟨c2, List.mem_cons_of_mem _ hc2, hcc⟩

theorem broadcastAuthLoop_mem (excl : Option Nat) (m : List (Nat × List Conn))
    (x : Nat) (hx : x ∈ (broadcastAuthLoop excl m).1) :
    ∃ p ∈ m, ∃ c ∈ p.2, c.cid = x := by
  induction m with
  | nil => simp [broadcastAuthLoop] at hx
  | cons p rest ih =>
    obtain ⟨uid, conns⟩ := p
    by_cases he : isExcluded excl uid = true
    · rw [show broadcastAuthLoop excl ((uid, conns) :: rest) = broadcastAuthLoop excl rest by
        simp [broadcastAuthLoop, he]] at hx
      rcases ih hx with ⟨q, hq, hc⟩
      exact ⟨q, List.mem_cons_of_mem _ hq, hc⟩
    · cases hsa : sendAll conns with
      | mk d f =>
        cases f with
        | some fc =>
          rw [show broadcastAuthLoop excl ((uid, conns) :: rest) = (d, some fc) by
            simp [broadcastAuthLoop, he, hsa]] at hx
          have hxd : x ∈ d := hx
          have : x ∈ (sendAll conns).1 := by rw [hsa]; exact hxd
          rcases sendAll_mem conns x this with ⟨c2, hc2, hcc⟩
          exact ⟨(uid, conns), List.mem_cons_self _ _, c2, hc2, hcc⟩
        | none =>
          rw [show broadcastAuthLoop excl ((uid, conns) :: rest) =
              (d ++ (broadcastAuthLoop excl rest).1, (broadcastAuthLoop excl rest).2) by
            simp [broadcastAuthLoop, he, hsa]] at hx
          rcases List.mem_append.mp hx with hx1 | hx2
          · have : x ∈ (sendAll conns).1 := by rw [hsa]; exact hx1
            rcases sendAll_mem conns x this with ⟨c2, hc2, hcc⟩
            exact ⟨(uid, conns), List.mem_cons_self _ _, c2, hc2, hcc⟩
          · rcases ih hx2 with ⟨q, hq, hc⟩
            exact ⟨q, List.mem_cons_of_mem _ hq, hc⟩

theorem filter_fst_map_const (l : List Nat) (m : OutMsg) (a : Nat) :
    (l.map (fun cid => (cid, m))).filter (fun q => q.1 == a) =
      (l.filter (fun cid => cid == a)).map (fun cid => (cid, m)) := by
  induction l with
  | nil => rfl
  | cons x xs ih =>
    by_cases hx : (x == a) = true
    · simp only [List.map_cons, List.filter_cons, hx, if_true, ih]
    · simp only [List.map_cons, List.filter_cons, hx]
      rw [if_neg (by simp [hx]), if_neg (by simp [hx])]
      exact ih

theorem filter_beq_nil (l : List Nat) (a : Nat) (h : ∀ x ∈ l, x ≠ a) :
    l.filter (fun x => x == a) = [] := by
  induction l with
  | nil => rfl
  | cons x xs ih =>
    rw [List.filter_cons]
    rw [if_neg (by simp [h x (List.mem_cons_self _ _)])]
    exact ih fun y hy => h y (List.mem_cons_of_mem _ hy)

theorem filter_beq_singleton (l : List Nat) (a : Nat) (hnd : l.Nodup) (ha : a ∈ l) :
    l.filter (fun x => x == a) = [a] := by
  induction l with
  | nil => simp at ha
  | cons x xs ih =>
    rw [List.nodup_cons] at hnd
    rcases List.mem_cons.mp ha with rfl | ha2
    · rw [List.filter_cons, if_pos (by simp)]
      rw [filter_beq_nil xs a fun y hy hya => hnd.1 (hya ▸ hy)]
    · rw [List.filter_cons]
      rw [if_neg (by
        simp only [beq_iff_eq]
        intro hh
        exact hnd.1 (hh ▸ ha2))]
      exact ih hnd.2 ha2

/-! ## C9 — per-subscriber ordering of the dispatch -/

/-- C9: for an accepted regular submission, every anonymous subscriber that
was registered before the dispatch, is open and whose send does not throw
receives exactly the `stress-update` for the created row followed by the
`summary-update`, in that order, and the summary average in that second
message is computed from the post-insert store (so it reflects the
just-inserted reading); the store after the accepted write is the old store
plus the new row.  The hypotheses say that no authenticated handle faults
(a fault there would escape before any anonymous delivery), that handle
identities are distinct, and that the subscriber is not simultaneously
registered as an authenticated handle. -/
theorem accepted_submission_message_order
    (cooldownMs : Int) (now : Nat) (st : Store) (reg : Registry) (validUsers : List Nat)
    (userId : Nat) (level : Int) (e : Entry) (st2 : Store)
    (hacc : postStress cooldownMs now st userId level = (StressResponse.created e, st2))
    (hauth_ok : ∀ p ∈ reg.connectedClients, ∀ c ∈ p.2, c.readyState = 1 → c.sendFails = false)
    (c : Conn) (hc : c ∈ reg.anonymousConnections) (hopen : c.readyState = 1)
    (hok : c.sendFails = false)
    (hnd : (reg.anonymousConnections.map (fun x => x.cid)).Nodup)
    (hsep : ∀ p ∈ reg.connectedClients, ∀ x ∈ p.2, x.cid ≠ c.cid) :
    st2.entries = st.entries ++ [e] ∧
    (submitStress cooldownMs now st reg validUsers userId level).sendLog.filter
        (fun q => q.1 == c.cid) =
      [(c.cid, OutMsg.stressUpdate e.id e.userId e.stressLevel e.isSuperstress e.createdAt),
       (c.cid, OutMsg.summaryUpdate (averageStressLevel st2.entries validUsers))] := by
  refine ⟨postStress_created _ _ _ _ _ _ _ hacc, ?_⟩
  have hsub : (submitStress cooldownMs now st reg validUsers userId level).sendLog =
      (broadcastStressUpdate reg st2.entries validUsers e userId).1 := by
    unfold submitStress
    rw [hacc]
  rw [hsub]
  have hfault : (broadcastToAuthenticated reg (some userId)).2 = none := by
    rw [broadcastToAuthenticated, broadcastAuthLoop_no_fail (some userId) _ hauth_ok]
  have hbsu : (broadcastStressUpdate reg st2.entries validUsers e userId).1 =
      (broadcastToAuthenticated reg (some userId)).1.map
        (fun cid => (cid, OutMsg.stressUpdate e.id e.userId e.stressLevel
          e.isSuperstress e.createdAt)) ++
      (anonSend reg.anonymousConnections).1.map
        (fun cid => (cid, OutMsg.stressUpdate e.id e.userId e.stressLevel
          e.isSuperstress e.createdAt)) ++
      (anonSend (anonSend reg.anonymousConnections).2).1.map
        (fun cid => (cid, OutMsg.summaryUpdate (averageStressLevel st2.entries validUsers))) := by
    unfold broadcastStressUpdate
    rw [hfault]
  rw [hbsu, List.filter_append, List.filter_append,
    filter_fst_map_const, filter_fst_map_const, filter_fst_map_const]
  have hA : (broadcastToAuthenticated reg (some userId)).1.filter
      (fun x => x == c.cid) = [] := by
    apply filter_beq_nil
    intro x hx
    rcases broadcastAuthLoop_mem (some userId) reg.connectedClients x hx with
      ⟨p, hp, c2, hc2, hcc⟩
    rw [← hcc]
    exact hsep p hp c2 hc2
  have hanon := anonSend_eq reg.anonymousConnections
  have hB : (anonSend reg.anonymousConnections).1.filter
      (fun x => x == c.cid) = [c.cid] := by
    rw [hanon]
    apply filter_beq_singleton
    · exact List.Nodup.sublist (List.Sublist.map _ (List.filter_sublist _)) hnd
    · exact List.mem_map_of_mem _ (List.mem_filter.mpr ⟨hc, by simp [hopen, hok]⟩)
  have hsurv : c ∈ (anonSend reg.anonymousConnections).2 := by
    rw [hanon]
    exact List.mem_filter.mpr ⟨hc, by simp [hopen, hok]⟩
  have hsurvnd : ((anonSend reg.anonymousConnections).2.map (fun x => x.cid)).Nodup := by
    rw [hanon]
    exact List.Nodup.sublist (List.Sublist.map _ (List.filter_sublist _)) hnd
  have hC : (anonSend (anonSend reg.anonymousConnections).2).1.filter
      (fun x => x == c.cid) = [c.cid] := by
    rw [anonSend_eq (anonSend reg.anonymousConnections).2]
    apply filter_beq_singleton
    · exact List.Nodup.sublist (List.Sublist.map _ (List.filter_sublist _)) hsurvnd
    · exact List.mem_map_of_mem _ (List.mem_filter.mpr ⟨hsurv, by simp [hopen, hok]⟩)
  rw [hA, hB, hC]
  rfl

/-- Witness for C9: user 7 submits level 50 into an empty store while user 2
holds an open authenticated handle (cid 10) and one anonymous subscriber
(cid 20) is connected; the subscriber's log is exactly the stress-update
followed by the summary-update computed from the post-insert store. -/
theorem accepted_submission_message_order_witness :
    (⟨[⟨1, 7, 50, false, 1000⟩], 2⟩ : Store).entries =
      (⟨[], 1⟩ : Store).entries ++ [⟨1, 7, 50, false, 1000⟩] ∧
    (submitStress 300000 1000 ⟨[], 1⟩
        ⟨[(2, [⟨10, 1, false⟩])], [⟨20, 1, false⟩]⟩ [7] 7 50).sendLog.filter
        (fun q => q.1 == (⟨20, 1, false⟩ : Conn).cid) =
      [((⟨20, 1, false⟩ : Conn).cid, OutMsg.stressUpdate 1 7 50 false 1000),
       ((⟨20, 1, false⟩ : Conn).cid, OutMsg.summaryUpdate
         (averageStressLevel (⟨[⟨1, 7, 50, false, 1000⟩], 2⟩ : Store).entries [7]))] :=
  accepted_submission_message_order 300000 1000 ⟨[], 1⟩
    ⟨[(2, [⟨10, 1, false⟩])], [⟨20, 1, false⟩]⟩ [7] 7 50
    ⟨1, 7, 50, false, 1000⟩ ⟨[⟨1, 7, 50, false, 1000⟩], 2⟩
    (by decide) (by decide) ⟨20, 1, false⟩ (by decide) rfl rfl (by decide) (by decide)

end StressTracker
